import Mathlib

/-!
Verification development for the binning engine of `elephant/rep.py`
(class `binned_st` and its helper functions).

Modelling conventions:
* Physical quantities carry a single fixed time unit in every scenario the
  claims quantify over; `rescale` between equal units is the identity, so a
  quantity is modelled as a rational number `ℚ` (the spec declares unit
  rescaling lossless and exact, and recommends exact rational arithmetic for
  the floor of the rescaled ratio).
* `numpy`'s `dtype=int` conversion truncates toward zero; `truncQ` models it.
* Fallible Python code (raised exceptions) is modelled with `Except RepError`
  or `Option` (for `numpy` index errors).
* The module is Python 2 source (it uses `itertools.izip` and `xrange`), so
  `binned_st` is an old-style class; the attribute-protocol consequences are
  modelled explicitly in the `filled`-property section below.
-/

namespace ElephantRep

/-- `numpy` `dtype=int` conversion: truncation toward zero (C cast). -/
def truncQ (q : ℚ) : ℤ := if q < 0 then -⌊-q⌋ else ⌊q⌋

/-- A `neo.core.SpikeTrain`: an ordered list of timestamps together with its
validity interval `[t_start, t_stop]`. -/
structure SpikeTrain where
  times : List ℚ
  t_start : ℚ
  t_stop : ℚ
deriving DecidableEq, Repr

/-- Errors raised by `rep.py`; one constructor per distinct raise site used by
the claims (names follow the spec's error taxonomy). -/
inductive RepError where
  | noArgs               -- "No arguments given" (ValueError in __check_init_params)
  | orderingError        -- "t_stop is smaller than t_start" (calc_num_bins / calc_binsize)
  | tooFewParams         -- "Too less parameter given" (AttributeError in __check_consistency)
  | disjointIntervals    -- consistency check 1
  | startOutOfRange      -- consistency check 2
  | inconsistentParams   -- consistency check 3
  | stopTooLarge         -- consistency check 4
  | nonIntegerBinCount   -- consistency check 5
  | stopOutOfRange       -- consistency check 6
  | emptyRange           -- consistency check 7
  | unresolvedParams     -- models the TypeError/AttributeError Python raises when a
                         -- still-unresolved (None) parameter reaches later arithmetic
  | indexError           -- IndexError from indexing filled[0] of an empty filled list
  | numpyShapeError      -- ValueError from np.hstack on incompatible blocks
deriving DecidableEq, Repr

/-- `calc_tstart`: `t_stop.rescale(binsize.units) - num_bins * binsize`
(returns `None` unless all three inputs are given). -/
def calc_tstart (num_bins : Option ℤ) (binsize : Option ℚ) (t_stop : Option ℚ) :
    Option ℚ :=
  match num_bins, binsize, t_stop with
  | some n, some w, some p => some (p - n * w)
  | _, _, _ => none

/-- `calc_tstop`: `t_start.rescale(binsize.units) + num_bins * binsize`. -/
def calc_tstop (num_bins : Option ℤ) (binsize : Option ℚ) (t_start : Option ℚ) :
    Option ℚ :=
  match num_bins, binsize, t_start with
  | some n, some w, some s => some (s + n * w)
  | _, _, _ => none

/-- `calc_num_bins`: raises when `t_stop < t_start`, otherwise
`int(((t_stop - t_start).rescale(binsize.units) / binsize).magnitude)`. -/
def calc_num_bins (binsize : Option ℚ) (t_start : Option ℚ) (t_stop : Option ℚ) :
    Except RepError (Option ℤ) :=
  match binsize, t_start, t_stop with
  | some w, some s, some p =>
      if p < s then .error .orderingError else .ok (some (truncQ ((p - s) / w)))
  | _, _, _ => .ok none

/-- `calc_binsize`: raises when `t_stop < t_start`, otherwise
`(t_stop - t_start) / num_bins`. -/
def calc_binsize (num_bins : Option ℤ) (t_start : Option ℚ) (t_stop : Option ℚ) :
    Except RepError (Option ℚ) :=
  match num_bins, t_start, t_stop with
  | some n, some s, some p =>
      if p < s then .error .orderingError else .ok (some ((p - s) / (n : ℚ)))
  | _, _, _ => .ok none

/-- `max([elem.t_start for elem in spiketrains])`; Python's `max` raises on an
empty list, which no claim exercises, so `[]` gets a junk value. -/
def maxTstart : List SpikeTrain → ℚ
  | [] => 0
  | t :: ts => ts.foldl (fun a s => max a s.t_start) t.t_start

/-- `min([elem.t_stop for elem in spiketrains])`. -/
def minTstop : List SpikeTrain → ℚ
  | [] => 0
  | t :: ts => ts.foldl (fun a s => min a s.t_stop) t.t_stop

/-- Python truthiness of an optional quantity: `None` and a zero quantity are
falsy (`bool(0*pq.s)` is `False`). -/
def truthyQ : Option ℚ → Bool
  | none => false
  | some q => q != 0

/-- Python truthiness of an optional integer. -/
def truthyZ : Option ℤ → Bool
  | none => false
  | some n => n != 0

/-- `__count_params`: `True` iff at least three of the four parameters are
truthy. -/
def count_params (t_start t_stop binsize : Option ℚ) (num_bins : Option ℤ) : Bool :=
  decide (3 ≤ (if truthyQ t_start then 1 else 0) + (if truthyQ t_stop then 1 else 0)
      + (if truthyQ binsize then 1 else 0) + (if truthyZ num_bins then (1 : ℕ) else 0))

/-- `__check_init_params` (the Parameter Resolver): fills in the single missing
parameter, in the source's `is None` elif order.  Returns the updated
`(binsize, num_bins, t_start, t_stop, matrix_columns)`. -/
def check_init_params (binsize : Option ℚ) (num_bins : Option ℤ)
    (t_start t_stop : Option ℚ) (matrix_columns : Option ℤ) :
    Except RepError (Option ℚ × Option ℤ × Option ℚ × Option ℚ × Option ℤ) :=
  match binsize, num_bins, t_start, t_stop with
  | none, none, none, none => .error .noArgs
  | _, _, none, _ =>
      .ok (binsize, num_bins, calc_tstart num_bins binsize t_stop, t_stop, matrix_columns)
  | _, _, _, none =>
      .ok (binsize, num_bins, t_start, calc_tstop num_bins binsize t_start, matrix_columns)
  | _, none, _, _ =>
      match calc_num_bins binsize t_start t_stop with
      | .error e => .error e
      | .ok nb =>
          .ok (binsize, nb, t_start, t_stop,
               match matrix_columns with | none => nb | some mc => some mc)
  | none, _, _, _ =>
      match calc_binsize num_bins t_start t_stop with
      | .error e => .error e
      | .ok bs => .ok (bs, num_bins, t_start, t_stop, matrix_columns)
  | _, _, _, _ =>
      .ok (binsize, num_bins, t_start, t_stop, matrix_columns)

/-- The seven ordered conditions of `__check_consistency`, with the parameter
lists collapsed to `mt = max(t_starts)` and `ms = min(t_stops)`.  At every
call site of the checker `matrix_columns = num_bins`, so condition 6 is stated
over `num_bins` alone (the source tests `matrix_columns < 1 or num_bins < 1`).
`num_bins - int(num_bins)` is identically `0` on `ℤ`, so condition 4 keeps
only the sign test. -/
def codeCond (mt ms w : ℚ) (n : ℤ) (s p : ℚ) : ℕ → Prop
  | 0 => mt < ms
  | 1 => mt ≤ s ∧ s ≤ ms
  | 2 => n = truncQ ((p - s) / w)
  | 3 => s < p ∧ p ≤ ms
  | 4 => 0 ≤ n
  | 5 => p ≤ ms ∧ mt ≤ p
  | 6 => 1 ≤ n
  | _ => True

instance codeCondDec (mt ms w : ℚ) (n : ℤ) (s p : ℚ) (i : ℕ) :
    Decidable (codeCond mt ms w n s p i) := by
  unfold codeCond
  split <;> infer_instance

/-- The error each of the seven consistency conditions raises when violated. -/
def condErr : ℕ → RepError
  | 0 => .disjointIntervals
  | 1 => .startOutOfRange
  | 2 => .inconsistentParams
  | 3 => .stopTooLarge
  | 4 => .nonIntegerBinCount
  | 5 => .stopOutOfRange
  | 6 => .emptyRange
  | _ => .tooFewParams

/-- The elif-chain of `__check_consistency` after the parameter-count gate. -/
def check_consistency7 (mt ms w : ℚ) (n : ℤ) (s p : ℚ) :
    Except RepError Unit :=
  if ms ≤ mt then .error .disjointIntervals
  else if s < mt ∨ ms < s then .error .startOutOfRange
  else if n ≠ truncQ ((p - s) / w) then .error .inconsistentParams
  else if ¬(s < p ∧ p ≤ ms) then .error .stopTooLarge
  else if n < 0 then .error .nonIntegerBinCount
  else if ms < p ∨ p < mt then .error .stopOutOfRange
  else if n < 1 then .error .emptyRange
  else .ok ()

/-- The Bin Assigner's per-timestamp index:
`((t - t_start).rescale(binsize.units) / binsize).magnitude` cast with
`dtype=int`. -/
def binIndex (t_start binsize : ℚ) (t : ℚ) : ℤ := truncQ ((t - t_start) / binsize)

/-- One row of `__convert_to_binned`: indices of one train, with
`idx_filled[idx_filled < self.num_bins]` filtering. -/
def binRow (t_start binsize : ℚ) (num_bins : ℤ) (ts : List ℚ) : List ℤ :=
  (ts.map (binIndex t_start binsize)).filter (fun i => decide (i < num_bins))

/-- `__convert_to_binned`: one index row per input train. -/
def convert_to_binned (t_start binsize : ℚ) (num_bins : ℤ)
    (trains : List SpikeTrain) : List (List ℤ) :=
  trains.map (fun tr => binRow t_start binsize num_bins tr.times)

/-- The `binned_st` instance state after a successful construction. -/
structure binned_st where
  t_start : ℚ
  t_stop : ℚ
  binsize : ℚ
  num_bins : ℤ
  matrix_rows : ℕ
  matrix_columns : ℤ
  filled : List (List ℤ)
  store_mat_c : Bool
  store_mat_u : Bool
  mat_c : Option (List (List ℕ))
  mat_u : Option (List (List ℕ))
deriving DecidableEq, Repr

/-- Constructor stages after `__calc_start_stop`: `__check_init_params`, the
`__check_consistency` parameter-count gate and elif-chain, then
`__convert_to_binned`. -/
def binned_st_core (trains : List SpikeTrain) (binsize : Option ℚ)
    (num_bins : Option ℤ) (t_start t_stop : Option ℚ) (store_mat : Bool) :
    Except RepError binned_st :=
  match check_init_params binsize num_bins t_start t_stop num_bins with
  | .error e => .error e
  | .ok (binsize1, num_bins1, t_start2, t_stop2, mcols1) =>
    match binsize1, num_bins1, t_start2, t_stop2, mcols1 with
    | some w, some n, some s, some p, some mc =>
      if count_params (some s) (some p) (some w) (some n) = false then
        .error .tooFewParams
      else
        match check_consistency7 (maxTstart trains) (minTstop trains) w n s p with
        | .error e => .error e
        | .ok _ =>
          .ok ⟨s, p, w, n, trains.length, mc,
               convert_to_binned s w n trains, store_mat, store_mat, none, none⟩
    | _, _, _, _, _ => .error .unresolvedParams

/-- `binned_st.__init__` for a list of spike trains: `__calc_start_stop` first
(note the source guards BOTH input-derivations on `self.t_stop is None`, so a
given `t_start` is overwritten alongside `t_stop` whenever fewer than three
parameters are truthy and `t_stop` is absent), then the remaining stages. -/
def binned_st_make (trains : List SpikeTrain) (binsize : Option ℚ)
    (num_bins : Option ℤ) (t_start t_stop : Option ℚ) (store_mat : Bool) :
    Except RepError binned_st :=
  match t_stop with
  | some p => binned_st_core trains binsize num_bins t_start (some p) store_mat
  | none =>
      if count_params t_start t_stop binsize num_bins then
        binned_st_core trains binsize num_bins t_start t_stop store_mat
      else
        binned_st_core trains binsize num_bins
          (some (maxTstart trains)) (some (minTstop trains)) store_mat

/-! ### Basic facts about the truncating cast -/

lemma truncQ_of_nonneg (q : ℚ) (h : 0 ≤ q) : truncQ q = ⌊q⌋ := by
  unfold truncQ
  rw [if_neg (not_lt.mpr h)]

lemma truncQ_nonneg (q : ℚ) (h : 0 ≤ q) : 0 ≤ truncQ q := by
  rw [truncQ_of_nonneg q h]
  exact Int.floor_nonneg.mpr h

lemma truncQ_nonpos_of_neg (q : ℚ) (h : q < 0) : truncQ q ≤ 0 := by
  unfold truncQ
  rw [if_pos h]
  have h0 : (0 : ℤ) ≤ ⌊-q⌋ := Int.floor_nonneg.mpr (by linarith)
  omega

/-! ### C1: the Bin Assigner on the half-open window -/

/-- C1 (confirmed).  With the resolved parameters consistent
(`num_bins = int((t_stop - t_start)/binsize)`, positive bin width, at least one
bin), the Bin Assigner computes `floor((t - t_start)/binsize)` for every
timestamp at or after `t_start`; a timestamp exactly equal to `t_stop` gets
index `num_bins` and is dropped by the `idx_filled < num_bins` filter (assigned
to no bin); a timestamp exactly equal to `t_start` is assigned to bin `0`,
which the filter retains; and a whole row of timestamps `≥ t_start` is exactly
the floor-indices filtered to those below `num_bins`. -/
theorem C1_bin_assigner (s p w : ℚ) (n : ℤ) (hw : 0 < w)
    (hn : n = truncQ ((p - s) / w)) (hn1 : 1 ≤ n) :
    (∀ t : ℚ, s ≤ t → binIndex s w t = ⌊(t - s) / w⌋)
    ∧ binRow s w n [p] = []
    ∧ binRow s w n [s] = [0]
    ∧ ∀ ts : List ℚ, (∀ t ∈ ts, s ≤ t) →
        binRow s w n ts =
          (ts.map (fun t => ⌊(t - s) / w⌋)).filter (fun i => decide (i < n)) := by
  have hidx : ∀ t : ℚ, s ≤ t → binIndex s w t = ⌊(t - s) / w⌋ := by
    intro t ht
    unfold binIndex
    exact truncQ_of_nonneg _ (div_nonneg (by linarith) hw.le)
  refine ⟨hidx, ?_, ?_, ?_⟩
  · have h1 : binIndex s w p = n := hn.symm
    simp [binRow, h1]
  · have h0 : binIndex s w s = 0 := by
      unfold binIndex
      rw [truncQ_of_nonneg _ (by simp)]
      simp
    simp [binRow, h0]
    omega
  · intro ts hts
    unfold binRow
    congr 1
    exact List.map_congr_left (fun t ht => hidx t (hts t ht))

/-- Witness for C1 at `t_start = 0`, `t_stop = 10`, `binsize = 1`,
`num_bins = 10`. -/
theorem C1_bin_assigner_w :
    binIndex 0 1 (7 / 2) = 3 ∧ binRow 0 1 10 [(10 : ℚ)] = []
      ∧ binRow 0 1 10 [(0 : ℚ)] = [0] := by
  have h := C1_bin_assigner 0 10 1 10 (by norm_num)
    (by unfold truncQ; norm_num) (by norm_num)
  refine ⟨?_, h.2.1, h.2.2.1⟩
  rw [h.1 (7 / 2) (by norm_num)]
  norm_num

/-! ### C4: range of stored bin indices -/

/-- C4 (corrected).  Every stored bin index is `< num_bins` (the upper bound is
enforced by the assigner's filter), and provided every timestamp is at or
after the resolved `t_start`, every stored index lies in `[0, num_bins)`.  The
lower bound can fail for timestamps before `t_start` (see the
counterexample): the source filters only `idx_filled < num_bins`. -/
theorem C4_index_range (s w : ℚ) (n : ℤ) (trains : List SpikeTrain) (hw : 0 < w) :
    (∀ row ∈ convert_to_binned s w n trains, ∀ i ∈ row, i < n)
    ∧ ((∀ tr ∈ trains, ∀ t ∈ tr.times, s ≤ t) →
        ∀ row ∈ convert_to_binned s w n trains, ∀ i ∈ row, 0 ≤ i ∧ i < n) := by
  have hup : ∀ row ∈ convert_to_binned s w n trains, ∀ i ∈ row, i < n := by
    intro row hrow i hi
    unfold convert_to_binned at hrow
    obtain ⟨tr, htr, rfl⟩ := List.mem_map.mp hrow
    unfold binRow at hi
    simpa using (List.mem_filter.mp hi).2
  refine ⟨hup, fun hts row hrow i hi => ⟨?_, hup row hrow i hi⟩⟩
  unfold convert_to_binned at hrow
  obtain ⟨tr, htr, rfl⟩ := List.mem_map.mp hrow
  unfold binRow at hi
  obtain ⟨t, htl, rfl⟩ := List.mem_map.mp (List.mem_filter.mp hi).1
  unfold binIndex
  exact truncQ_nonneg _ (div_nonneg (sub_nonneg.mpr (hts tr htr t htl)) hw.le)

/-- Counterexample for C4 as stated: a fully validated construction (two
trains, the resolved `t_start = 2` sitting at the later train's start) stores
the index `-1` for the earlier train's timestamp `0.5`, which does not lie in
`[0, num_bins)`. -/
theorem C4_counterexample :
    binned_st_make [⟨[1 / 2], 0, 10⟩, ⟨[], 2, 10⟩] (some 1) (some 8) (some 2)
        (some 10) false
      = .ok ⟨2, 10, 1, 8, 2, 8, [[-1], []], false, false, none, none⟩
    ∧ ¬ (0 : ℤ) ≤ -1 := by
  constructor
  · unfold binned_st_make binned_st_core
    norm_num [check_init_params, count_params, truthyQ, truthyZ, maxTstart,
      minTstop, check_consistency7, truncQ, convert_to_binned, binRow, binIndex]
  · decide

/-- Witness for C4, instantiated at the stored index `0` of the row
`[0, 6]` that the assigner produces for timestamps `[0.5, 6.7]` over
`[0, 10)`: the index lies in `[0, num_bins)`. -/
theorem C4_index_range_w : 0 ≤ (0 : ℤ) ∧ (0 : ℤ) < 10 :=
  (C4_index_range 0 1 10 [⟨[1 / 2, 67 / 10], 0, 10⟩] (by norm_num)).2
    (by
      intro tr htr t ht
      simp only [List.mem_singleton] at htr
      subst htr
      simp only [List.mem_cons, List.not_mem_nil, or_false] at ht
      rcases ht with h | h <;> rw [h] <;> norm_num)
    [0, 6]
    (by
      rw [show convert_to_binned 0 1 10 [⟨[1 / 2, 67 / 10], 0, 10⟩] = [[0, 6]]
        from by norm_num [convert_to_binned, binRow, binIndex, truncQ]]
      decide)
    0 (by decide)

/-! ### C5: the Parameter Resolver's derivation formulas -/

/-- C5 (confirmed).  With exactly one of the four parameters omitted and the
other three given, `__check_init_params` derives (in the source's branch
order): a missing `t_start` as `t_stop - num_bins*binsize`; a missing `t_stop`
as `t_start + num_bins*binsize`; a missing `num_bins` as
`floor((t_stop - t_start)/binsize)`, raising the ordering error when
`t_stop < t_start`; and a missing `binsize` as
`(t_stop - t_start)/num_bins`, raising the ordering error when
`t_stop < t_start`.  (`binsize > 0` makes truncation equal floor; Python would
raise `ZeroDivisionError` for `num_bins = 0`, excluded by `hn`.) -/
theorem C5_param_resolver (s p w : ℚ) (n : ℤ) (hw : 0 < w) (hn : n ≠ 0) :
    (check_init_params (some w) (some n) none (some p) (some n) =
       .ok (some w, some n, some (p - n * w), some p, some n))
    ∧ (check_init_params (some w) (some n) (some s) none (some n) =
       .ok (some w, some n, some s, some (s + n * w), some n))
    ∧ ((p < s →
         check_init_params (some w) none (some s) (some p) none =
           .error .orderingError)
       ∧ (s ≤ p →
         check_init_params (some w) none (some s) (some p) none =
           .ok (some w, some ⌊(p - s) / w⌋, some s, some p,
                some ⌊(p - s) / w⌋)))
    ∧ ((p < s →
         check_init_params none (some n) (some s) (some p) (some n) =
           .error .orderingError)
       ∧ (s ≤ p →
         check_init_params none (some n) (some s) (some p) (some n) =
           .ok (some ((p - s) / (n : ℚ)), some n, some s, some p, some n))) := by
  refine ⟨rfl, rfl, ⟨?_, ?_⟩, ⟨?_, ?_⟩⟩
  · intro hps
    simp [check_init_params, calc_num_bins, hps]
  · intro hsp
    have ht : truncQ ((p - s) / w) = ⌊(p - s) / w⌋ :=
      truncQ_of_nonneg _ (div_nonneg (sub_nonneg.mpr hsp) hw.le)
    simp [check_init_params, calc_num_bins, not_lt.mpr hsp, ht]
  · intro hps
    simp [check_init_params, calc_binsize, hps]
  · intro hsp
    simp [check_init_params, calc_binsize, not_lt.mpr hsp]

/-- Witness for C5: derived `num_bins` for `[0, 9]` with unit bins, and the
ordering failure. -/
theorem C5_param_resolver_w :
    check_init_params (some 1) none (some 0) (some 9) none =
      .ok (some 1, some 9, some 0, some 9, some 9)
    ∧ check_init_params (some 1) none (some 5) (some 2) none =
      .error .orderingError := by
  constructor
  · have h := (C5_param_resolver 0 9 1 4 (by norm_num) (by decide)).2.2.1.2
      (by norm_num)
    rw [h]
    norm_num
  · exact (C5_param_resolver 5 2 1 4 (by norm_num) (by decide)).2.2.1.1
      (by norm_num)

/-! ### C3: order of the consistency checks -/

/-- Modelled from the spec's wording of the seven validation conditions: the
claim states condition (3) with `floor((stop-start)/bin_width)`, where the
source uses Python's truncating `int()` cast (they differ for negative
ratios).  Conditions are indexed `0`–`6` for checks (1)–(7). -/
def claimCond (mt ms w : ℚ) (n : ℤ) (s p : ℚ) : ℕ → Prop
  | 0 => mt < ms
  | 1 => mt ≤ s ∧ s ≤ ms
  | 2 => n = ⌊(p - s) / w⌋
  | 3 => s < p ∧ p ≤ ms
  | 4 => 0 ≤ n
  | 5 => p ≤ ms ∧ mt ≤ p
  | 6 => 1 ≤ n
  | _ => True

/-- C3 (amended: condition (3) compares against the truncation toward zero,
not the floor).  The elif-chain of `__check_consistency` succeeds exactly when
all seven conditions hold, and otherwise raises the error of the first
violated condition, in exactly the stated order. -/
theorem C3_check_order (mt ms w : ℚ) (n : ℤ) (s p : ℚ) :
    (check_consistency7 mt ms w n s p = .ok () ↔
        ∀ i < 7, codeCond mt ms w n s p i)
    ∧ (∀ i < 7, ¬ codeCond mt ms w n s p i →
        (∀ j < i, codeCond mt ms w n s p j) →
        check_consistency7 mt ms w n s p = .error (condErr i)) := by
  have herr : ∀ i < 7, ¬ codeCond mt ms w n s p i →
      (∀ j < i, codeCond mt ms w n s p j) →
      check_consistency7 mt ms w n s p = .error (condErr i) := by
    intro i hi hviol hprev
    interval_cases i
    · unfold check_consistency7
      rw [if_pos (not_lt.mp hviol)]
      rfl
    · have g1 : ¬ ms ≤ mt := not_le.mpr (hprev 0 (by omega))
      have hv : ¬ (mt ≤ s ∧ s ≤ ms) := hviol
      have hor : s < mt ∨ ms < s := by
        by_cases hh : mt ≤ s
        · push_neg at hv
          exact Or.inr (hv hh)
        · exact Or.inl (not_le.mp hh)
      unfold check_consistency7
      rw [if_neg g1, if_pos hor]
      rfl
    · have g1 : ¬ ms ≤ mt := not_le.mpr (hprev 0 (by omega))
      have g2 : ¬ (s < mt ∨ ms < s) := by
        push_neg
        exact hprev 1 (by omega)
      have hv : n ≠ truncQ ((p - s) / w) := hviol
      unfold check_consistency7
      rw [if_neg g1, if_neg g2, if_pos hv]
      rfl
    · have g1 : ¬ ms ≤ mt := not_le.mpr (hprev 0 (by omega))
      have g2 : ¬ (s < mt ∨ ms < s) := by
        push_neg
        exact hprev 1 (by omega)
      have g3 : ¬ n ≠ truncQ ((p - s) / w) := not_not_intro (hprev 2 (by omega))
      have hv : ¬ (s < p ∧ p ≤ ms) := hviol
      unfold check_consistency7
      rw [if_neg g1, if_neg g2, if_neg g3, if_pos hv]
      rfl
    · have g1 : ¬ ms ≤ mt := not_le.mpr (hprev 0 (by omega))
      have g2 : ¬ (s < mt ∨ ms < s) := by
        push_neg
        exact hprev 1 (by omega)
      have g3 : ¬ n ≠ truncQ ((p - s) / w) := not_not_intro (hprev 2 (by omega))
      have g4 : ¬ ¬ (s < p ∧ p ≤ ms) := not_not_intro (hprev 3 (by omega))
      have hv : n < 0 := not_le.mp hviol
      unfold check_consistency7
      rw [if_neg g1, if_neg g2, if_neg g3, if_neg g4, if_pos hv]
      rfl
    · have g1 : ¬ ms ≤ mt := not_le.mpr (hprev 0 (by omega))
      have g2 : ¬ (s < mt ∨ ms < s) := by
        push_neg
        exact hprev 1 (by omega)
      have g3 : ¬ n ≠ truncQ ((p - s) / w) := not_not_intro (hprev 2 (by omega))
      have g4 : ¬ ¬ (s < p ∧ p ≤ ms) := not_not_intro (hprev 3 (by omega))
      have g5 : ¬ n < 0 := not_lt.mpr (hprev 4 (by omega))
      have hv : ¬ (p ≤ ms ∧ mt ≤ p) := hviol
      have hor : ms < p ∨ p < mt := by
        by_cases hh : p ≤ ms
        · push_neg at hv
          exact Or.inr (hv hh)
        · exact Or.inl (not_le.mp hh)
      unfold check_consistency7
      rw [if_neg g1, if_neg g2, if_neg g3, if_neg g4, if_neg g5, if_pos hor]
      rfl
    · have g1 : ¬ ms ≤ mt := not_le.mpr (hprev 0 (by omega))
      have g2 : ¬ (s < mt ∨ ms < s) := by
        push_neg
        exact hprev 1 (by omega)
      have g3 : ¬ n ≠ truncQ ((p - s) / w) := not_not_intro (hprev 2 (by omega))
      have g4 : ¬ ¬ (s < p ∧ p ≤ ms) := not_not_intro (hprev 3 (by omega))
      have g5 : ¬ n < 0 := not_lt.mpr (hprev 4 (by omega))
      have g6 : ¬ (ms < p ∨ p < mt) := by
        push_neg
        exact hprev 5 (by omega)
      have hv : n < 1 := not_le.mp hviol
      unfold check_consistency7
      rw [if_neg g1, if_neg g2, if_neg g3, if_neg g4, if_neg g5, if_neg g6,
        if_pos hv]
      rfl
  have hok : (∀ i < 7, codeCond mt ms w n s p i) →
      check_consistency7 mt ms w n s p = .ok () := by
    intro hall
    have g1 : ¬ ms ≤ mt := not_le.mpr (hall 0 (by omega))
    have c1 : mt ≤ s ∧ s ≤ ms := hall 1 (by omega)
    have g2 : ¬ (s < mt ∨ ms < s) := by
      push_neg
      exact c1
    have g3 : ¬ n ≠ truncQ ((p - s) / w) := not_not_intro (hall 2 (by omega))
    have g4 : ¬ ¬ (s < p ∧ p ≤ ms) := not_not_intro (hall 3 (by omega))
    have g5 : ¬ n < 0 := not_lt.mpr (hall 4 (by omega))
    have c5 : p ≤ ms ∧ mt ≤ p := hall 5 (by omega)
    have g6 : ¬ (ms < p ∨ p < mt) := by
      push_neg
      exact c5
    have g7 : ¬ n < 1 := not_lt.mpr (hall 6 (by omega))
    unfold check_consistency7
    rw [if_neg g1, if_neg g2, if_neg g3, if_neg g4, if_neg g5, if_neg g6,
      if_neg g7]
  refine ⟨⟨?_, hok⟩, herr⟩
  intro hc
  by_contra hnall
  push_neg at hnall
  obtain ⟨i, hi, hviol⟩ := hnall
  have hex : ∃ k, k < 7 ∧ ¬ codeCond mt ms w n s p k := ⟨i, hi, hviol⟩
  have hspec := Nat.find_spec hex
  have hprev : ∀ j < Nat.find hex, codeCond mt ms w n s p j := by
    intro j hj
    by_contra hcj
    exact Nat.find_min hex hj ⟨lt_trans hj hspec.1, hcj⟩
  rw [herr (Nat.find hex) hspec.1 hspec.2 hprev] at hc
  exact Except.noConfusion hc

/-- Witness for C3: the claim's own error scenario — `num_bins = 10` requested
while the derivable value over `[0, 9.5)` with unit bins is `9` — raises the
inconsistent-parameters error (condition (3) is the first violated). -/
theorem C3_check_order_w :
    check_consistency7 0 10 1 10 0 (19 / 2) = .error .inconsistentParams := by
  have h := (C3_check_order 0 10 1 10 0 (19 / 2)).2 2 (by omega)
    (by
      intro hc
      have hc2 : (10 : ℤ) = truncQ ((19 / 2 - 0) / 1) := hc
      rw [show truncQ (((19 : ℚ) / 2 - 0) / 1) = 9 from by
        unfold truncQ; norm_num] at hc2
      exact absurd hc2 (by decide))
    (by
      intro j hj
      interval_cases j
      · show (0 : ℚ) < 10
        norm_num
      · exact ⟨le_rfl, by norm_num⟩)
  exact h

/-- Counterexample for C3 as stated: with `t_stop = -1/2 < t_start = 1` and
`num_bins = -1`, the truncation toward zero of `(t_stop - t_start)/binsize`
is `-1` while its floor is `-2`; the first condition violated in the claim's
floor-based reading is (3) — whose error is the inconsistent-parameters one —
but the construction passes the source's check (3) and fails at check (4)
with the stop-too-large error instead. -/
theorem C3_counterexample :
    claimCond 0 10 1 (-1) 1 (-1 / 2) 0
    ∧ claimCond 0 10 1 (-1) 1 (-1 / 2) 1
    ∧ ¬ claimCond 0 10 1 (-1) 1 (-1 / 2) 2
    ∧ binned_st_make [⟨[], 0, 10⟩] (some 1) (some (-1)) (some 1)
        (some (-1 / 2)) false = .error .stopTooLarge
    ∧ condErr 2 = .inconsistentParams
    ∧ RepError.stopTooLarge ≠ .inconsistentParams := by
  refine ⟨by norm_num [claimCond], by norm_num [claimCond], ?_, ?_, rfl, by decide⟩
  · intro hc
    have hc2 : (-1 : ℤ) = ⌊((-1 : ℚ) / 2 - 1) / 1⌋ := hc
    rw [show (⌊((-1 : ℚ) / 2 - 1) / 1⌋ : ℤ) = -2 from by norm_num] at hc2
    exact absurd hc2 (by decide)
  · unfold binned_st_make binned_st_core
    norm_num [check_init_params, count_params, truthyQ, truthyZ, maxTstart,
      minTstop, check_consistency7, truncQ]

/-! ### C9: the Edge Calculator -/

/-- `np.linspace(a, b, num, endpoint=True)` over exact rationals:
`num` points `a + i*(b-a)/(num-1)`; a single requested point is just `a`. -/
def linspaceT (a b : ℚ) (num : ℕ) : List ℚ :=
  (List.range num).map
    (fun (i : ℕ) => if num ≤ 1 then a else a + (i : ℚ) * (b - a) / ((num : ℚ) - 1))

/-- `np.linspace(a, b, num, endpoint=False)`: `num` points with step
`(b-a)/num`. -/
def linspaceF (a b : ℚ) (num : ℕ) : List ℚ :=
  (List.range num).map (fun (i : ℕ) => a + (i : ℚ) * (b - a) / (num : ℚ))

/-- The `edges` property: `np.linspace(t_start, t_stop, num_bins + 1,
endpoint=True)` (a negative `num_bins` would make `numpy` raise; `toNat`
restricts to the validated range). -/
def binned_st.edges (st : binned_st) : List ℚ :=
  linspaceT st.t_start st.t_stop (st.num_bins.toNat + 1)

/-- The `left_edges` property: `np.linspace(t_start, t_stop, num_bins,
endpoint=False)`. -/
def binned_st.left_edges (st : binned_st) : List ℚ :=
  linspaceF st.t_start st.t_stop st.num_bins.toNat

/-- The `right_edges` property: `left_edges + binsize` (elementwise). -/
def binned_st.right_edges (st : binned_st) : List ℚ :=
  st.left_edges.map (fun x => x + st.binsize)

/-- The `center_edges` property: `left_edges + binsize/2` (elementwise). -/
def binned_st.center_edges (st : binned_st) : List ℚ :=
  st.left_edges.map (fun x => x + st.binsize / 2)

/-- C9 (confirmed).  The Edge Calculator returns
`edges[i] = t_start + i*(t_stop - t_start)/num_bins` for `i = 0..num_bins`
(`num_bins + 1` points), `left_edges` equal to the first `num_bins` of the
edges, `right_edges` equal to the left edges shifted by `binsize`, and
`center_edges` equal to the left edges shifted by `binsize/2`; the properties
are pure functions of the instance, so repeated calls return the same
sequences definitionally. -/
theorem C9_edge_calculator (st : binned_st) :
    (∀ i < st.num_bins.toNat + 1,
        st.edges.get? i =
          some (st.t_start +
            i * (st.t_stop - st.t_start) / (st.num_bins.toNat : ℚ)))
    ∧ st.left_edges = st.edges.take st.num_bins.toNat
    ∧ st.right_edges = st.left_edges.map (fun x => x + st.binsize)
    ∧ st.center_edges = st.left_edges.map (fun x => x + st.binsize / 2) := by
  refine ⟨?_, ?_, rfl, rfl⟩
  · intro i hi
    unfold binned_st.edges linspaceT
    rw [List.get?_map, List.get?_range hi]
    simp only [Option.map_some']
    by_cases hn : st.num_bins.toNat = 0
    · have hi0 : i = 0 := by omega
      subst hi0
      rw [hn]
      norm_num
    · have hcond : ¬ (st.num_bins.toNat + 1 ≤ 1) := by omega
      rw [if_neg hcond]
      have hcast : ((st.num_bins.toNat + 1 : ℕ) : ℚ) - 1 = (st.num_bins.toNat : ℚ) := by
        push_cast
        ring
      rw [hcast]
  · unfold binned_st.left_edges binned_st.edges linspaceT linspaceF
    rw [← List.map_take, List.take_range, min_eq_left (by omega)]
    refine List.map_congr_left ?_
    intro i hi
    rw [List.mem_range] at hi
    rw [if_neg (by omega)]
    have hcast : ((st.num_bins.toNat + 1 : ℕ) : ℚ) - 1 = (st.num_bins.toNat : ℚ) := by
      push_cast
      ring
    rw [hcast]

/-! ### The Algebraic Combinator: `create_class`, `__add__`, `__sub__` -/

/-- A dynamically-typed element of the `filled` list of a combined instance:
normal rows are integer arrays (`ints`); the multi-row `__add__` branch stores
a whole `filled` list (a Python list of arrays) as a single element
(`nested`). -/
inductive PyArr where
  | ints (r : List ℤ)
  | nested (rs : List (List ℤ))
deriving DecidableEq, Repr

/-- The state of the instance returned by `create_class` and the operators. -/
structure combined_st where
  t_start : ℚ
  t_stop : ℚ
  binsize : ℚ
  num_bins : ℤ
  matrix_rows : ℕ
  matrix_columns : ℤ
  filledv : List PyArr
deriving DecidableEq, Repr

/-- `create_class`: constructs the dummy train
`neo.core.SpikeTrain([] * pq.s, t_stop=stop)` (its `t_start` defaults to `0`),
reruns the full constructor with the left operand's parameters, empties
`filled`, and overrides `matrix_rows`.  The source line
`new_class.matrix_col = mat_col` assigns a stray attribute (the name is
truncated), so `matrix_columns` keeps the value from the dummy construction;
`mat_col` is therefore unused. -/
def create_class (start stop binsize : ℚ) (mat_row : ℕ) (mat_col : ℤ) :
    Except RepError combined_st :=
  match binned_st_make [⟨[], 0, stop⟩] (some binsize) none (some start)
      (some stop) false with
  | .error e => .error e
  | .ok c =>
      .ok ⟨c.t_start, c.t_stop, c.binsize, c.num_bins, mat_row,
           c.matrix_columns, []⟩

/-- The `filled` assignment of `__add__`: the two-element list
`[self.filled, other.filled]` when either operand has more than one row,
otherwise `np.hstack((self.filled, other.filled))` (`none` models the
`np.hstack` dimension-mismatch `ValueError` for a one-row/zero-row pair). -/
def addFilled (a b : List (List ℤ)) : Option (List PyArr) :=
  if 1 < a.length ∨ 1 < b.length then
    some [PyArr.nested a, PyArr.nested b]
  else
    match a, b with
    | [ra], [rb] => some [PyArr.ints (ra ++ rb)]
    | [], [] => some []
    | _, _ => none

/-- `binned_st.__add__`. -/
def binned_st_add (x y : binned_st) : Except RepError combined_st :=
  match create_class x.t_start x.t_stop x.binsize x.matrix_rows
      x.matrix_columns with
  | .error e => .error e
  | .ok c =>
      match addFilled x.filled y.filled with
      | some f => .ok {c with filledv := f}
      | none => .error .numpyShapeError

/-- The symmetric set difference `set(s) ^ set(o)` / `np.setxor1d(s, o)`:
elements belonging to exactly one operand, each once.  (`np.setxor1d` returns
them sorted; a Python 2 `set`'s iteration order is unspecified.  The model
fixes first-occurrence order; every theorem below uses only membership and
`Nodup`, which are order-independent.) -/
def pySetXor (s o : List ℤ) : List ℤ :=
  ((s ++ o).dedup).filter (fun x => decide ((x ∈ s ∧ x ∉ o) ∨ (x ∉ s ∧ x ∈ o)))

/-- `binned_st.__sub__`: per-row symmetric difference; in the single-row
branch an empty difference is replaced by `np.zeros(len(self.filled[0]))`. -/
def binned_st_sub (x y : binned_st) : Except RepError combined_st :=
  match create_class x.t_start x.t_stop x.binsize x.matrix_rows
      x.matrix_columns with
  | .error e => .error e
  | .ok c0 =>
      let c := {c0 with matrix_columns := x.matrix_columns,
                        matrix_rows := x.matrix_rows}
      if 1 < x.filled.length ∨ 1 < y.filled.length then
        .ok {c with filledv :=
          (x.filled.zip y.filled).map (fun pr => PyArr.ints (pySetXor pr.1 pr.2))}
      else
        match x.filled, y.filled with
        | ra :: _, rb :: _ =>
            if (pySetXor ra rb).isEmpty then
              .ok {c with filledv := [PyArr.ints (List.replicate ra.length 0)]}
            else
              .ok {c with filledv := [PyArr.ints (pySetXor ra rb)]}
        | _, _ => .error .indexError

/-- Modelled from the spec: the claimed union semantics — `filled[row]` is the
concatenation of both operands' index-sequences for that row. -/
def claimUnionFilled (a b : List (List ℤ)) : List PyArr :=
  (a.zip b).map (fun pr => PyArr.ints (pr.1 ++ pr.2))

/-- Shared evaluation: `create_class` over the window `[0, 10]` with unit
bins succeeds with ten bins, for any requested row/column overrides. -/
lemma create_class_eval (r : ℕ) (mcol : ℤ) :
    create_class 0 10 1 r mcol = .ok ⟨0, 10, 1, 10, r, 10, []⟩ := by
  unfold create_class binned_st_make binned_st_core
  norm_num [check_init_params, calc_num_bins, count_params, truthyQ, truthyZ,
    maxTstart, minTstop, check_consistency7, truncQ, convert_to_binned, binRow]

/-! ### C6: union -/

/-- C6 (amended).  When `create_class` accepts the left operand's parameters:
for one-row operands, `A + B` yields `filled = [concat(A_row, B_row)]` with
duplicates retained; but when either operand has more than one row, `filled`
becomes the two-element list `[A.filled, B.filled]` — the operands' whole
filled lists as the two entries — not the row-wise concatenation. -/
theorem C6_union (x y : binned_st) (c : combined_st)
    (hc : create_class x.t_start x.t_stop x.binsize x.matrix_rows
      x.matrix_columns = .ok c) :
    (∀ ra rb, x.filled = [ra] → y.filled = [rb] →
        binned_st_add x y = .ok {c with filledv := [PyArr.ints (ra ++ rb)]})
    ∧ (1 < x.filled.length ∨ 1 < y.filled.length →
        binned_st_add x y =
          .ok {c with filledv := [PyArr.nested x.filled, PyArr.nested y.filled]}) := by
  constructor
  · intro ra rb hx hy
    simp [binned_st_add, hc, addFilled, hx, hy]
  · intro hlen
    simp [binned_st_add, hc, addFilled, hlen]

/-- Witness for C6 on one-row operands over `[0, 10]`. -/
theorem C6_union_w :
    binned_st_add ⟨0, 10, 1, 10, 1, 10, [[0, 0, 1]], false, false, none, none⟩
        ⟨0, 10, 1, 10, 1, 10, [[0, 2]], false, false, none, none⟩
      = .ok ⟨0, 10, 1, 10, 1, 10, [PyArr.ints [0, 0, 1, 0, 2]]⟩ := by
  exact (C6_union ⟨0, 10, 1, 10, 1, 10, [[0, 0, 1]], false, false, none, none⟩
    ⟨0, 10, 1, 10, 1, 10, [[0, 2]], false, false, none, none⟩
    ⟨0, 10, 1, 10, 1, 10, []⟩ (create_class_eval 1 10)).1 [0, 0, 1] [0, 2] rfl rfl

/-- Counterexample for C6 as stated: for two-row operands the union's
`filled` is the nested pair `[A.filled, B.filled]`, not the claimed row-wise
concatenation. -/
theorem C6_counterexample :
    binned_st_add ⟨0, 10, 1, 10, 2, 10, [[0], [1]], false, false, none, none⟩
        ⟨0, 10, 1, 10, 2, 10, [[2], [3]], false, false, none, none⟩
      = .ok ⟨0, 10, 1, 10, 2, 10, [PyArr.nested [[0], [1]], PyArr.nested [[2], [3]]]⟩
    ∧ [PyArr.nested [[0], [1]], PyArr.nested [[2], [3]]]
        ≠ claimUnionFilled [[0], [1]] [[2], [3]] := by
  constructor
  · exact (C6_union ⟨0, 10, 1, 10, 2, 10, [[0], [1]], false, false, none, none⟩
      ⟨0, 10, 1, 10, 2, 10, [[2], [3]], false, false, none, none⟩
      ⟨0, 10, 1, 10, 2, 10, []⟩ (create_class_eval 2 10)).2 (by decide)
  · decide

/-! ### C10: no shape validation in union -/

/-- C10 (amended).  `__add__` performs no shape validation: its result depends
on the right operand only through `filled` (never through `num_bins` or the
row/column counts), and operands whose row counts differ (either having more
than one row) are combined without any error whenever `create_class` accepts
the left operand's own parameters. -/
theorem C10_no_shape_check :
    (∀ x y1 y2 : binned_st, y1.filled = y2.filled →
        binned_st_add x y1 = binned_st_add x y2)
    ∧ (∀ x y : binned_st, ∀ c : combined_st,
        create_class x.t_start x.t_stop x.binsize x.matrix_rows
          x.matrix_columns = .ok c →
        (1 < x.filled.length ∨ 1 < y.filled.length) →
        ∃ r, binned_st_add x y = .ok r) := by
  constructor
  · intro x y1 y2 hf
    unfold binned_st_add
    rw [hf]
  · intro x y c hc hlen
    exact ⟨_, (C6_union x y c hc).2 hlen⟩

/-- Counterexample for C10 as stated: operands differing in both `num_bins`
(`10` vs `5`) and row count (`1` vs `2`) are combined without a
shape-mismatch error. -/
theorem C10_counterexample :
    binned_st_add ⟨0, 10, 1, 10, 1, 10, [[1]], false, false, none, none⟩
        ⟨0, 5, 1, 5, 2, 5, [[2], [3]], false, false, none, none⟩
      = .ok ⟨0, 10, 1, 10, 1, 10, [PyArr.nested [[1]], PyArr.nested [[2], [3]]]⟩
    ∧ (10 : ℤ) ≠ 5 ∧ (1 : ℕ) ≠ 2 := by
  refine ⟨?_, by decide, by decide⟩
  simp [binned_st_add, create_class_eval 1 10, addFilled]

/-- Witness for C10: shape-field independence applied at two concrete right
operands sharing `filled` but with different `num_bins`. -/
theorem C10_no_shape_check_w :
    binned_st_add ⟨0, 10, 1, 10, 1, 10, [[1]], false, false, none, none⟩
        ⟨0, 5, 1, 5, 1, 5, [[2]], false, false, none, none⟩
      = binned_st_add ⟨0, 10, 1, 10, 1, 10, [[1]], false, false, none, none⟩
        ⟨0, 10, 1, 10, 1, 10, [[2]], false, false, none, none⟩ := by
  exact C10_no_shape_check.1 _ _ _ rfl

/-! ### C7: symmetric difference -/

/-- C7 (amended).  `A - B` fills each row with the symmetric set difference of
the two rows (each element retained once, no duplicates); however, in the
single-row branch a row whose symmetric difference is empty receives
`np.zeros(len(A_row))` — a sequence of zeros of the left row's length — and
not an empty sequence (the source replaces the empty array, the opposite of
the claimed marker). -/
theorem C7_symmetric_difference :
    (∀ s o a, a ∈ pySetXor s o ↔ ((a ∈ s ∧ a ∉ o) ∨ (a ∉ s ∧ a ∈ o)))
    ∧ (∀ s o, (pySetXor s o).Nodup)
    ∧ (∀ x y : binned_st, ∀ c : combined_st,
        create_class x.t_start x.t_stop x.binsize x.matrix_rows
          x.matrix_columns = .ok c →
        ((1 < x.filled.length ∨ 1 < y.filled.length →
           binned_st_sub x y = .ok {c with
             matrix_columns := x.matrix_columns,
             matrix_rows := x.matrix_rows,
             filledv := (x.filled.zip y.filled).map
               (fun pr => PyArr.ints (pySetXor pr.1 pr.2))})
         ∧ (∀ ra rb, x.filled = [ra] → y.filled = [rb] →
             pySetXor ra rb ≠ [] →
             binned_st_sub x y = .ok {c with
               matrix_columns := x.matrix_columns,
               matrix_rows := x.matrix_rows,
               filledv := [PyArr.ints (pySetXor ra rb)]})
         ∧ (∀ ra rb, x.filled = [ra] → y.filled = [rb] →
             pySetXor ra rb = [] →
             binned_st_sub x y = .ok {c with
               matrix_columns := x.matrix_columns,
               matrix_rows := x.matrix_rows,
               filledv := [PyArr.ints (List.replicate ra.length 0)]}))) := by
  refine ⟨?_, ?_, ?_⟩
  · intro s o a
    unfold pySetXor
    rw [List.mem_filter]
    constructor
    · intro h
      simpa using h.2
    · intro h
      refine ⟨List.mem_dedup.mpr (List.mem_append.mpr ?_), by simpa using h⟩
      rcases h with h | h
      · exact Or.inl h.1
      · exact Or.inr h.2
  · intro s o
    exact (List.nodup_dedup _).filter _
  · intro x y c hc
    refine ⟨?_, ?_, ?_⟩
    · intro hlen
      simp [binned_st_sub, hc, hlen]
    · intro ra rb hx hy hne
      simp [binned_st_sub, hc, hx, hy, List.isEmpty_iff, hne]
    · intro ra rb hx hy he
      simp [binned_st_sub, hc, hx, hy, List.isEmpty_iff, he]

/-- Witness for C7: single-row operands with a nonempty symmetric
difference. -/
theorem C7_symmetric_difference_w :
    binned_st_sub ⟨0, 10, 1, 10, 1, 10, [[1, 2]], false, false, none, none⟩
        ⟨0, 10, 1, 10, 1, 10, [[2, 3]], false, false, none, none⟩
      = .ok ⟨0, 10, 1, 10, 1, 10, [PyArr.ints [1, 3]]⟩ := by
  have h := ((C7_symmetric_difference.2.2
    ⟨0, 10, 1, 10, 1, 10, [[1, 2]], false, false, none, none⟩
    ⟨0, 10, 1, 10, 1, 10, [[2, 3]], false, false, none, none⟩
    ⟨0, 10, 1, 10, 1, 10, []⟩ (create_class_eval 1 10)).2.1
    [1, 2] [2, 3] rfl rfl (by decide))
  rw [h]
  rfl

/-- Counterexample for C7 as stated: equal one-row operands have an empty
symmetric difference, and the result row is `[0, 0]` — zeros of the left
row's length — not the claimed explicit empty sequence. -/
theorem C7_counterexample :
    binned_st_sub ⟨0, 10, 1, 10, 1, 10, [[1, 2]], false, false, none, none⟩
        ⟨0, 10, 1, 10, 1, 10, [[2, 1]], false, false, none, none⟩
      = .ok ⟨0, 10, 1, 10, 1, 10, [PyArr.ints [0, 0]]⟩
    ∧ PyArr.ints [0, 0] ≠ PyArr.ints [] := by
  constructor
  · have h := ((C7_symmetric_difference.2.2
      ⟨0, 10, 1, 10, 1, 10, [[1, 2]], false, false, none, none⟩
      ⟨0, 10, 1, 10, 1, 10, [[2, 1]], false, false, none, none⟩
      ⟨0, 10, 1, 10, 1, 10, []⟩ (create_class_eval 1 10)).2.2
      [1, 2] [2, 1] rfl rfl (by decide))
    rw [h]
    rfl
  · decide

/-! ### The Matrix Materializer -/

/-- `np.zeros((rows, cols))` (entries are integral throughout). -/
def zerosMat (rows cols : ℕ) : List (List ℕ) :=
  List.replicate rows (List.replicate cols 0)

/-- `numpy` index normalization for `mat[_, i]`: negative indices wrap once;
anything else out of `[-cols, cols)` raises `IndexError` (`none`). -/
def npIndex (cols : ℕ) (i : ℤ) : Option ℕ :=
  if 0 ≤ i ∧ i < (cols : ℤ) then some i.toNat
  else if -(cols : ℤ) ≤ i ∧ i < 0 then some (i + cols).toNat
  else none

/-- `self.mat_c[elem_idx, elem] = 1`: fancy assignment of `1` at every index
of `elem` into one row. -/
def setOneRow (cols : ℕ) (row : List ℕ) (idxs : List ℤ) : Option (List ℕ) :=
  idxs.foldlM (fun r i => (npIndex cols i).map (fun j => r.set j 1)) row

/-- `for inner_elem in elem: mat[elem_idx, inner_elem] += 1`. -/
def addOneRow (cols : ℕ) (row : List ℕ) (idxs : List ℤ) : Option (List ℕ) :=
  idxs.foldlM
    (fun r i => (npIndex cols i).map (fun j => r.set j (r.getD j 0 + 1))) row

/-- The row loop of the on-demand branch of `matrix_clipped` (the `return` is
after the loop). -/
def clipLoop (cols : ℕ) (mat : List (List ℕ)) (idx : ℕ) :
    List (List ℤ) → Option (List (List ℕ))
  | [] => some mat
  | r :: rest =>
    if r.isEmpty then clipLoop cols mat (idx + 1) rest
    else
      (mat.get? idx).bind fun row =>
        (setOneRow cols row r).bind fun row' =>
          clipLoop cols (mat.set idx row') (idx + 1) rest

/-- `matrix_clipped`'s on-demand computation over `filled`. -/
def matrix_clipped_on_demand (rows cols : ℕ) (filled : List (List ℤ)) :
    Option (List (List ℕ)) :=
  clipLoop cols (zerosMat rows cols) 0 filled

/-- `matrix_clipped`'s store branch: `return self.mat_c` sits INSIDE the row
loop, so only the first row of `filled` is processed before returning; with an
empty `filled` the loop body never runs and the method falls through,
returning Python `None` while `mat_c` keeps the stored zeros matrix.  The
result pairs (returned value, stored `mat_c`). -/
def matrix_clipped_stored_compute (rows cols : ℕ) (filled : List (List ℤ)) :
    Option (Option (List (List ℕ)) × List (List ℕ)) :=
  match filled with
  | [] => some (none, zerosMat rows cols)
  | r :: _ =>
    if r.isEmpty then some (some (zerosMat rows cols), zerosMat rows cols)
    else
      ((zerosMat rows cols).get? 0).bind fun row =>
        (setOneRow cols row r).bind fun row' =>
          some (some ((zerosMat rows cols).set 0 row'),
                (zerosMat rows cols).set 0 row')

/-- The row loop of the store branch of `matrix_unclipped` (here the `return`
is after the loop, so all rows are processed; the inner `len(elem) >= 1`
guard is vacuous under the outer `len(elem) != 0`). -/
def unclipLoopStored (cols : ℕ) (mat : List (List ℕ)) (idx : ℕ) :
    List (List ℤ) → Option (List (List ℕ))
  | [] => some mat
  | r :: rest =>
    if r.isEmpty then unclipLoopStored cols mat (idx + 1) rest
    else
      (mat.get? idx).bind fun row =>
        (addOneRow cols row r).bind fun row' =>
          unclipLoopStored cols (mat.set idx row') (idx + 1) rest

/-- The row loop of the on-demand branch of `matrix_unclipped`: a row with a
single element takes the direct `tmp_mat[elem_idx, elem[0]] += 1` path
(modelled as `r.take 1`, equal to `r` in that case). -/
def unclipLoopOnDemand (cols : ℕ) (mat : List (List ℕ)) (idx : ℕ) :
    List (List ℤ) → Option (List (List ℕ))
  | [] => some mat
  | r :: rest =>
    if r.isEmpty then unclipLoopOnDemand cols mat (idx + 1) rest
    else
      (mat.get? idx).bind fun row =>
        (addOneRow cols row (if 1 < r.length then r else r.take 1)).bind fun row' =>
          unclipLoopOnDemand cols (mat.set idx row') (idx + 1) rest

/-- `matrix_unclipped`'s store-branch computation. -/
def matrix_unclipped_stored_compute (rows cols : ℕ) (filled : List (List ℤ)) :
    Option (List (List ℕ)) :=
  unclipLoopStored cols (zerosMat rows cols) 0 filled

/-- `matrix_unclipped`'s on-demand computation. -/
def matrix_unclipped_on_demand (rows cols : ℕ) (filled : List (List ℤ)) :
    Option (List (List ℕ)) :=
  unclipLoopOnDemand cols (zerosMat rows cols) 0 filled

/-- `matrix_clipped(**kwargs)` including the `store_mat` flag update and the
`mat_c` cache: returns the (possibly `None`) Python return value and the
updated instance. -/
def matrix_clipped (st : binned_st) (store_arg : Option Bool) :
    Option (Option (List (List ℕ)) × binned_st) :=
  let st1 := match store_arg with
    | some b => {st with store_mat_c := b}
    | none => st
  match st1.mat_c with
  | some m => some (some m, st1)
  | none =>
    if st1.store_mat_c then
      match matrix_clipped_stored_compute st1.matrix_rows
          st1.matrix_columns.toNat st1.filled with
      | none => none
      | some (ret, stored) => some (ret, {st1 with mat_c := some stored})
    else
      match matrix_clipped_on_demand st1.matrix_rows
          st1.matrix_columns.toNat st1.filled with
      | none => none
      | some m => some (some m, st1)

/-- `matrix_unclipped(**kwargs)` with the `mat_u` cache. -/
def matrix_unclipped (st : binned_st) (store_arg : Option Bool) :
    Option (Option (List (List ℕ)) × binned_st) :=
  let st1 := match store_arg with
    | some b => {st with store_mat_u := b}
    | none => st
  match st1.mat_u with
  | some m => some (some m, st1)
  | none =>
    if st1.store_mat_u then
      match matrix_unclipped_stored_compute st1.matrix_rows
          st1.matrix_columns.toNat st1.filled with
      | none => none
      | some m => some (some m, {st1 with mat_u := some m})
    else
      match matrix_unclipped_on_demand st1.matrix_rows
          st1.matrix_columns.toNat st1.filled with
      | none => none
      | some m => some (some m, st1)

/-- All indices of all rows lie in `[0, cols)`. -/
def rowsInRange (cols : ℕ) (filled : List (List ℤ)) : Prop :=
  ∀ r ∈ filled, ∀ i ∈ r, 0 ≤ i ∧ i < (cols : ℤ)

instance rowsInRangeDec (cols : ℕ) (filled : List (List ℤ)) :
    Decidable (rowsInRange cols filled) := by
  unfold rowsInRange
  infer_instance

/-- Cell access with defaults, for stating matrix contents. -/
def cellD (m : List (List ℕ)) (a j : ℕ) : ℕ := (m.getD a []).getD j 0

/-! #### List helpers -/

lemma getD_set {α : Type} (l : List α) (i j : ℕ) (v d : α) :
    (l.set i v).getD j d = if i = j ∧ j < l.length then v else l.getD j d := by
  induction l generalizing i j with
  | nil => simp
  | cons a t ih =>
    cases i with
    | zero =>
      cases j with
      | zero => simp
      | succ j => simp
    | succ i =>
      cases j with
      | zero => simp
      | succ j =>
        simp only [List.set_cons_succ, List.getD_cons_succ, List.length_cons]
        rw [ih]
        by_cases h : i = j ∧ j < t.length
        · rw [if_pos h, if_pos ⟨by omega, by omega⟩]
        · rw [if_neg h, if_neg (by omega)]

lemma getD_replicate {α : Type} (n j : ℕ) (x d : α) :
    (List.replicate n x).getD j d = if j < n then x else d := by
  induction n generalizing j with
  | zero => simp
  | succ n ih =>
    cases j with
    | zero => simp
    | succ j =>
      simp only [List.replicate_succ, List.getD_cons_succ]
      rw [ih]
      by_cases h : j < n
      · rw [if_pos h, if_pos (by omega)]
      · rw [if_neg h, if_neg (by omega)]

lemma cellD_zeros (rows cols a j : ℕ) : cellD (zerosMat rows cols) a j = 0 := by
  unfold cellD zerosMat
  rw [getD_replicate]
  by_cases h : a < rows
  · rw [if_pos h, getD_replicate]
    by_cases hj : j < cols
    · rw [if_pos hj]
    · rw [if_neg hj]
  · rw [if_neg h]
    rfl

lemma cellD_set (m : List (List ℕ)) (i a j : ℕ) (row : List ℕ) :
    cellD (m.set i row) a j =
      if i = a ∧ a < m.length then row.getD j 0 else cellD m a j := by
  unfold cellD
  rw [getD_set]
  by_cases h : i = a ∧ a < m.length
  · rw [if_pos h, if_pos h]
  · rw [if_neg h, if_neg h]

/-! #### Row and loop characterizations -/

lemma npIndex_in_range (cols : ℕ) (i : ℤ) (h : 0 ≤ i ∧ i < (cols : ℤ)) :
    npIndex cols i = some i.toNat := by
  unfold npIndex
  rw [if_pos h]

lemma setOneRow_eq (cols : ℕ) :
    ∀ (idxs : List ℤ) (row : List ℕ), row.length = cols →
      (∀ i ∈ idxs, 0 ≤ i ∧ i < (cols : ℤ)) →
      ∃ row', setOneRow cols row idxs = some row' ∧ row'.length = cols ∧
        ∀ j : ℕ, row'.getD j 0 = if (j : ℤ) ∈ idxs then 1 else row.getD j 0 := by
  intro idxs
  induction idxs with
  | nil =>
    intro row hlen _
    exact ⟨row, rfl, hlen, by simp⟩
  | cons i rest ih =>
    intro row hlen hin
    have hi := hin i (List.mem_cons_self i rest)
    have hlen1 : (row.set i.toNat 1).length = cols := by
      rw [List.length_set]
      exact hlen
    obtain ⟨row', heq, hlen', hcell⟩ := ih (row.set i.toNat 1) hlen1
      (fun x hx => hin x (List.mem_cons_of_mem _ hx))
    refine ⟨row', ?_, hlen', ?_⟩
    · unfold setOneRow at heq ⊢
      rw [List.foldlM_cons, npIndex_in_range cols i hi]
      simpa using heq
    · intro j
      rw [hcell j, getD_set]
      by_cases hjr : (j : ℤ) ∈ rest
      · rw [if_pos hjr, if_pos (List.mem_cons_of_mem _ hjr)]
      · rw [if_neg hjr]
        by_cases hji : (j : ℤ) = i
        · have h1 : i.toNat = j := by omega
          have h2 : j < row.length := by omega
          rw [if_pos ⟨h1, h2⟩,
            if_pos (List.mem_cons.mpr (Or.inl hji))]
        · rw [if_neg (by intro hc; exact hji (by omega)),
            if_neg (by
              intro hc
              rcases List.mem_cons.mp hc with h | h
              · exact hji h
              · exact hjr h)]

lemma addOneRow_eq (cols : ℕ) :
    ∀ (idxs : List ℤ) (row : List ℕ), row.length = cols →
      (∀ i ∈ idxs, 0 ≤ i ∧ i < (cols : ℤ)) →
      ∃ row', addOneRow cols row idxs = some row' ∧ row'.length = cols ∧
        ∀ j : ℕ, row'.getD j 0 = row.getD j 0 + idxs.count (j : ℤ) := by
  intro idxs
  induction idxs with
  | nil =>
    intro row hlen _
    exact ⟨row, rfl, hlen, by simp⟩
  | cons i rest ih =>
    intro row hlen hin
    have hi := hin i (List.mem_cons_self i rest)
    have hlen1 : (row.set i.toNat (row.getD i.toNat 0 + 1)).length = cols := by
      rw [List.length_set]
      exact hlen
    obtain ⟨row', heq, hlen', hcell⟩ := ih (row.set i.toNat (row.getD i.toNat 0 + 1))
      hlen1 (fun x hx => hin x (List.mem_cons_of_mem _ hx))
    refine ⟨row', ?_, hlen', ?_⟩
    · unfold addOneRow at heq ⊢
      rw [List.foldlM_cons, npIndex_in_range cols i hi]
      simpa using heq
    · intro j
      rw [hcell j, getD_set, List.count_cons]
      simp only [beq_iff_eq]
      by_cases hji : i = (j : ℤ)
      · have h1 : i.toNat = j := by omega
        have h2 : j < row.length := by omega
        rw [if_pos ⟨h1, h2⟩, if_pos hji, h1]
        omega
      · rw [if_neg (by intro hc; exact hji (by omega)), if_neg hji]
        omega

/-- The two `matrix_unclipped` row loops agree: the single-element special
case of the on-demand branch is equivalent to the general loop. -/
lemma unclipLoops_eq (cols : ℕ) :
    ∀ (filled : List (List ℤ)) (mat : List (List ℕ)) (idx : ℕ),
      unclipLoopOnDemand cols mat idx filled = unclipLoopStored cols mat idx filled := by
  intro filled
  induction filled with
  | nil =>
    intro mat idx
    rfl
  | cons r rest ih =>
    intro mat idx
    unfold unclipLoopOnDemand unclipLoopStored
    by_cases hr : r.isEmpty
    · rw [if_pos hr, if_pos hr]
      exact ih mat (idx + 1)
    · rw [if_neg hr, if_neg hr]
      have hrr : (if 1 < r.length then r else r.take 1) = r := by
        by_cases hl : 1 < r.length
        · rw [if_pos hl]
        · rw [if_neg hl]
          have : r.length = 1 := by
            have : r ≠ [] := by
              intro hc
              subst hc
              exact hr rfl
            have := List.length_pos.mpr this
            omega
          rw [List.take_of_length_le (by omega)]
      rw [hrr]
      cases h1 : mat.get? idx with
      | none => rfl
      | some row =>
        rw [Option.some_bind, Option.some_bind]
        cases h2 : addOneRow cols row r with
        | none => rfl
        | some row' =>
          rw [Option.some_bind, Option.some_bind]
          exact ih (mat.set idx row') (idx + 1)

/-- Cell-level characterization of the unclipped store-branch loop. -/
lemma unclipLoopStored_eq (cols : ℕ) :
    ∀ (filled : List (List ℤ)) (mat : List (List ℕ)) (idx : ℕ),
      (∀ r ∈ mat, r.length = cols) →
      rowsInRange cols filled →
      idx + filled.length ≤ mat.length →
      ∃ mat', unclipLoopStored cols mat idx filled = some mat' ∧
        mat'.length = mat.length ∧ (∀ r ∈ mat', r.length = cols) ∧
        ∀ a j : ℕ,
          cellD mat' a j = cellD mat a j +
            (if idx ≤ a ∧ a - idx < filled.length then
              (filled.getD (a - idx) []).count (j : ℤ) else 0) := by
  intro filled
  induction filled with
  | nil =>
    intro mat idx hmat _ _
    refine ⟨mat, rfl, rfl, hmat, ?_⟩
    intro a j
    simp
  | cons r rest ih =>
    intro mat idx hmat hin hbound
    have hidx : idx < mat.length := by
      have := hbound
      simp only [List.length_cons] at this
      omega
    by_cases hr : r.isEmpty
    · have hre : r = [] := List.isEmpty_iff.mp hr
      obtain ⟨mat', heq, hlen', hcols', hcell⟩ := ih mat (idx + 1) hmat
        (fun x hx => hin x (List.mem_cons_of_mem _ hx))
        (by simp only [List.length_cons] at hbound ⊢; omega)
      refine ⟨mat', ?_, hlen', hcols', ?_⟩
      · unfold unclipLoopStored
        rw [if_pos hr]
        exact heq
      · intro a j
        rw [hcell a j]
        by_cases ha : idx + 1 ≤ a ∧ a - (idx + 1) < rest.length
        · rw [if_pos ha, if_pos (by simp only [List.length_cons]; omega)]
          obtain ⟨k, hk⟩ : ∃ k, a - idx = k + 1 := ⟨a - idx - 1, by omega⟩
          rw [hk, List.getD_cons_succ, show k = a - (idx + 1) from by omega]
        · rw [if_neg ha]
          by_cases ha2 : idx ≤ a ∧ a - idx < rest.length + 1
          · have haeq : a = idx := by omega
            rw [if_pos (by simp only [List.length_cons]; omega), haeq]
            simp [hre]
          · rw [if_neg (by simp only [List.length_cons]; omega)]
    · obtain ⟨row, hrow⟩ : ∃ row, mat.get? idx = some row :=
        ⟨mat.get ⟨idx, hidx⟩, List.get?_eq_get hidx⟩
      have hrowmem : row ∈ mat := List.get?_mem hrow
      have hrowlen : row.length = cols := hmat row hrowmem
      obtain ⟨row', hset, hrowlen', hrowcell⟩ := addOneRow_eq cols r row hrowlen
        (hin r (List.mem_cons_self r rest))
      have hmat1 : ∀ x ∈ mat.set idx row', x.length = cols := by
        intro x hx
        rcases List.mem_or_eq_of_mem_set hx with h | h
        · exact hmat x h
        · rw [h]
          exact hrowlen'
      obtain ⟨mat', heq, hlen', hcols', hcell⟩ := ih (mat.set idx row') (idx + 1)
        hmat1 (fun x hx => hin x (List.mem_cons_of_mem _ hx))
        (by
          rw [List.length_set]
          simp only [List.length_cons] at hbound
          omega)
      refine ⟨mat', ?_, by rw [hlen', List.length_set], hcols', ?_⟩
      · unfold unclipLoopStored
        rw [if_neg hr, hrow, Option.some_bind, hset, Option.some_bind]
        exact heq
      · intro a j
        rw [hcell a j, cellD_set]
        by_cases haeq : a = idx
        · subst haeq
          rw [if_pos ⟨rfl, hidx⟩, if_neg (by omega),
            if_pos (by simp only [List.length_cons]; omega)]
          have : cellD mat a j = row.getD j 0 := by
            unfold cellD
            congr 1
            have h1 : mat[a]? = some row := by
              rw [← List.get?_eq_getElem?]
              exact hrow
            rw [List.getD_eq_getElem?_getD, h1]
            rfl
          rw [this, hrowcell j]
          simp
        · rw [if_neg (by intro hc; exact haeq hc.1.symm)]
          by_cases ha : idx + 1 ≤ a ∧ a - (idx + 1) < rest.length
          · rw [if_pos ha, if_pos (by simp only [List.length_cons]; omega)]
            obtain ⟨k, hk⟩ : ∃ k, a - idx = k + 1 := ⟨a - idx - 1, by omega⟩
            rw [hk, List.getD_cons_succ, show k = a - (idx + 1) from by omega]
          · rw [if_neg ha, if_neg (by
              intro hc
              simp only [List.length_cons] at hc
              exact ha ⟨by omega, by omega⟩)]

lemma zerosMat_rows (rows cols : ℕ) :
    ∀ r ∈ zerosMat rows cols, r.length = cols := by
  intro r hr
  rw [List.eq_of_mem_replicate hr]
  exact List.length_replicate cols 0

/-- C8 (amended).  For the unclipped (count) mode the store-branch and
on-demand computations agree for any number of rows, and the common matrix is
`rows × cols` with each cell counting that column's occurrences in the row's
index-sequence.  For the clipped mode the same holds for single-row
representations, with cell `1` exactly when the row contains the column.  A
populated cache is returned unchanged by later calls (bit-identical matrices).
But the clipped store-branch computation returns from inside its row loop, so
it depends only on the FIRST row of `filled` — with more than one row its
cached matrix differs from the on-demand one (see the counterexample). -/
theorem C8_matrix_materializer :
    (∀ rows cols filled, matrix_unclipped_on_demand rows cols filled =
        matrix_unclipped_stored_compute rows cols filled)
    ∧ (∀ rows cols (filled : List (List ℤ)), filled.length = rows →
        rowsInRange cols filled →
        ∃ m, matrix_unclipped_stored_compute rows cols filled = some m ∧
          matrix_unclipped_on_demand rows cols filled = some m ∧
          m.length = rows ∧ (∀ row ∈ m, row.length = cols) ∧
          ∀ a j : ℕ, a < rows → j < cols →
            cellD m a j = (filled.getD a []).count (j : ℤ))
    ∧ (∀ (cols : ℕ) (r : List ℤ), (∀ i ∈ r, 0 ≤ i ∧ i < (cols : ℤ)) →
        ∃ m, matrix_clipped_stored_compute 1 cols [r] = some (some m, m) ∧
          matrix_clipped_on_demand 1 cols [r] = some m ∧
          m.length = 1 ∧ (∀ row ∈ m, row.length = cols) ∧
          ∀ j : ℕ, j < cols → cellD m 0 j = if (j : ℤ) ∈ r then 1 else 0)
    ∧ (∀ st : binned_st, ∀ m, st.mat_c = some m →
        matrix_clipped st none = some (some m, st))
    ∧ (∀ st : binned_st, ∀ m, st.mat_u = some m →
        matrix_unclipped st none = some (some m, st))
    ∧ (∀ rows cols (r : List ℤ) rest rest',
        matrix_clipped_stored_compute rows cols (r :: rest) =
          matrix_clipped_stored_compute rows cols (r :: rest')) := by
  refine ⟨?_, ?_, ?_, ?_, ?_, ?_⟩
  · intro rows cols filled
    unfold matrix_unclipped_on_demand matrix_unclipped_stored_compute
    exact unclipLoops_eq cols filled (zerosMat rows cols) 0
  · intro rows cols filled hrows hin
    obtain ⟨m, heq, hlen, hcols, hcell⟩ := unclipLoopStored_eq cols filled
      (zerosMat rows cols) 0 (zerosMat_rows rows cols) hin
      (by simp [zerosMat]; omega)
    refine ⟨m, heq, ?_, ?_, ?_⟩
    · unfold matrix_unclipped_on_demand
      rw [unclipLoops_eq]
      exact heq
    · rw [hlen]
      simp [zerosMat]
    · refine ⟨hcols, ?_⟩
      intro a j ha hj
      rw [hcell a j, cellD_zeros, if_pos ⟨by omega, by omega⟩]
      simp
  · intro cols r hin
    by_cases hr : r.isEmpty
    · have hre : r = [] := List.isEmpty_iff.mp hr
      refine ⟨zerosMat 1 cols, ?_, ?_, by simp [zerosMat],
        zerosMat_rows 1 cols, ?_⟩
      · simp only [matrix_clipped_stored_compute]
        rw [if_pos hr]
      · unfold matrix_clipped_on_demand
        simp only [clipLoop]
        rw [if_pos hr]
      · intro j hj
        rw [cellD_zeros, hre]
        simp
    · have hget : (zerosMat 1 cols).get? 0 = some (List.replicate cols 0) := rfl
      obtain ⟨row', hset, hlen', hcell⟩ := setOneRow_eq cols r
        (List.replicate cols 0) (List.length_replicate cols 0) hin
      have hmem1 : ∀ x ∈ (zerosMat 1 cols).set 0 row', x.length = cols := by
        intro x hx
        rcases List.mem_or_eq_of_mem_set hx with h | h
        · exact zerosMat_rows 1 cols x h
        · rw [h]
          exact hlen'
      refine ⟨(zerosMat 1 cols).set 0 row', ?_, ?_, ?_, hmem1, ?_⟩
      · simp only [matrix_clipped_stored_compute]
        rw [if_neg hr, hget, Option.some_bind, hset, Option.some_bind]
      · unfold matrix_clipped_on_demand
        simp only [clipLoop]
        rw [if_neg hr, hget, Option.some_bind, hset, Option.some_bind]
      · simp [zerosMat]
      · intro j hj
        rw [cellD_set, if_pos ⟨rfl, by simp [zerosMat]⟩,
          hcell j, getD_replicate, if_pos hj]
  · intro st m h
    unfold matrix_clipped
    simp [h]
  · intro st m h
    unfold matrix_unclipped
    simp [h]
  · intro rows cols r rest rest'
    rfl

/-- Counterexample for C8 as stated: a two-row representation whose clipped
store-branch result fills only the first row — the cached matrix
`[[1,0],[0,0]]` is returned (bit-identically) on the first and second call,
but the on-demand policy computes `[[1,0],[0,1]]` from the same `filled`. -/
theorem C8_counterexample :
    matrix_clipped ⟨0, 10, 1, 2, 2, 2, [[0], [1]], true, true, none, none⟩ none
      = some (some [[1, 0], [0, 0]],
        ⟨0, 10, 1, 2, 2, 2, [[0], [1]], true, true, some [[1, 0], [0, 0]], none⟩)
    ∧ matrix_clipped ⟨0, 10, 1, 2, 2, 2, [[0], [1]], true, true,
        some [[1, 0], [0, 0]], none⟩ none
      = some (some [[1, 0], [0, 0]],
        ⟨0, 10, 1, 2, 2, 2, [[0], [1]], true, true, some [[1, 0], [0, 0]], none⟩)
    ∧ matrix_clipped_on_demand 2 2 [[0], [1]] = some [[1, 0], [0, 1]]
    ∧ ([[1, 0], [0, 0]] : List (List ℕ)) ≠ [[1, 0], [0, 1]] := by
  refine ⟨rfl, rfl, by decide, by decide⟩

/-- Witness for C8: cache stability at a populated cache, and the unclipped
count matrix for a concrete two-row `filled`. -/
theorem C8_matrix_materializer_w :
    matrix_clipped ⟨0, 10, 1, 2, 2, 2, [[0], [1]], true, true,
        some [[1, 0], [0, 0]], none⟩ none
      = some (some [[1, 0], [0, 0]],
        ⟨0, 10, 1, 2, 2, 2, [[0], [1]], true, true, some [[1, 0], [0, 0]], none⟩)
    ∧ matrix_unclipped_stored_compute 2 3 [[0, 0], [1]] = some [[2, 0, 0], [0, 1, 0]]
    ∧ matrix_unclipped_on_demand 2 3 [[0, 0], [1]] = some [[2, 0, 0], [0, 1, 0]] := by
  refine ⟨C8_matrix_materializer.2.2.2.1
    ⟨0, 10, 1, 2, 2, 2, [[0], [1]], true, true, some [[1, 0], [0, 0]], none⟩
    [[1, 0], [0, 0]] rfl, ?_⟩
  obtain ⟨m, h1, h2, _⟩ := C8_matrix_materializer.2.1 2 3 [[0, 0], [1]] rfl
    (by decide)
  have hc : matrix_unclipped_stored_compute 2 3 [[0, 0], [1]] =
      some [[2, 0, 0], [0, 1, 0]] := by decide
  rw [hc] at h1
  injection h1 with h1'
  rw [← h1'] at h2
  exact ⟨hc, h2⟩

/-! ### C2: the self-referential `filled` property

`rep.py` is Python 2 source (`itertools.izip` at line 976, `xrange` at line
1265), so `class binned_st:` is an old-style (classic) class.  For classic
instances, attribute assignment writes the instance `__dict__` directly and
never consults a property's setter, and attribute reads check the instance
`__dict__` before the class attributes; only for new-style classes is a
property a data descriptor that intercepts every read and write.  The model
makes both protocols explicit, with fuel bounding re-entries into the
property's self-referential bodies. -/

/-- The attribute protocol in force. -/
inductive PySem where
  | classic
  | newstyle
deriving DecidableEq, Repr

/-- Reading `self.filled` from an instance whose `filled` dict slot is the
argument (`none` = absent).  The getter's body is `return self.filled`, a
re-read of the same attribute: under classic semantics it only runs when the
slot is absent; under new-style semantics the data descriptor runs it on
every read, so no fuel suffices. -/
def getFilled : PySem → ℕ → Option (List (List ℤ)) → Option (List (List ℤ))
  | _, 0, _ => none
  | .classic, _ + 1, some v => some v
  | .classic, fuel + 1, none => getFilled .classic fuel none
  | .newstyle, fuel + 1, s => getFilled .newstyle fuel s

/-- Assigning `self.filled = v`: classic semantics writes the dict slot;
new-style semantics runs the setter, whose body `self.filled = f` re-runs the
same assignment without a base case. -/
def setFilled : PySem → ℕ → Option (List (List ℤ)) → List (List ℤ) →
    Option (Option (List (List ℤ)))
  | .classic, _, _, v => some (some v)
  | .newstyle, 0, _, _ => none
  | .newstyle, fuel + 1, s, v => setFilled .newstyle fuel s v

/-- The constructor's interaction with the `filled` attribute:
`self.filled = []` (line 347), then `__convert_to_binned` appends one row per
train via `self.filled.append(...)` — an attribute read followed by in-place
mutation of the list object the attribute refers to — and finally the rows
are read back. -/
def constructFilled (sem : PySem) (fuel : ℕ) (t_start binsize : ℚ)
    (num_bins : ℤ) (trains : List SpikeTrain) : Option (List (List ℤ)) :=
  (setFilled sem fuel none []).bind fun s0 =>
    (trains.foldlM (fun s tr =>
        (getFilled sem fuel s).map
          (fun cur => some (cur ++ [binRow t_start binsize num_bins tr.times])))
      s0).bind fun s1 =>
      getFilled sem fuel s1

lemma setFilled_newstyle (fuel : ℕ) (s : Option (List (List ℤ)))
    (v : List (List ℤ)) : setFilled .newstyle fuel s v = none := by
  induction fuel with
  | zero => rfl
  | succ fuel ih => exact ih

lemma setFilled_classic (fuel : ℕ) (s : Option (List (List ℤ)))
    (v : List (List ℤ)) : setFilled .classic fuel s v = some (some v) := by
  cases fuel <;> rfl

lemma getFilled_classic (fuel : ℕ) (h : 1 ≤ fuel) (v : List (List ℤ)) :
    getFilled .classic fuel (some v) = some v := by
  cases fuel with
  | zero => omega
  | succ fuel => rfl

lemma constructFilled_classic_fold (fuel : ℕ) (h : 1 ≤ fuel) (s w : ℚ) (n : ℤ) :
    ∀ (trains : List SpikeTrain) (l : List (List ℤ)),
      trains.foldlM (fun st tr =>
          (getFilled .classic fuel st).map
            (fun cur => some (cur ++ [binRow s w n tr.times])))
        (some l)
      = some (some (l ++ convert_to_binned s w n trains)) := by
  intro trains
  induction trains with
  | nil =>
    intro l
    simp [convert_to_binned]
  | cons tr rest ih =>
    intro l
    rw [List.foldlM_cons, getFilled_classic fuel h l]
    simp only [Option.map_some', Option.bind_eq_bind, Option.some_bind]
    rw [ih (l ++ [binRow s w n tr.times])]
    simp [convert_to_binned]

/-- C2 (amended).  Under new-style (Python 3, descriptor-honoring) attribute
semantics, the self-referential setter diverges at every fuel, so the
constructor's `self.filled = []` would never terminate — the claim's
mechanism is real for new-style classes.  But `binned_st` is an old-style
Python 2 class: assignment bypasses the setter and reads find the instance
attribute first, so for any fuel at least `1` the constructor's
`filled`-interaction terminates and produces exactly
`__convert_to_binned`'s rows. -/
theorem C2_filled_property :
    (∀ (fuel : ℕ) (st : Option (List (List ℤ))) (v : List (List ℤ)),
        setFilled .newstyle fuel st v = none)
    ∧ (∀ (fuel : ℕ) (s w : ℚ) (n : ℤ) (trains : List SpikeTrain),
        constructFilled .newstyle fuel s w n trains = none)
    ∧ (∀ (fuel : ℕ), 1 ≤ fuel → ∀ (s w : ℚ) (n : ℤ) (trains : List SpikeTrain),
        constructFilled .classic fuel s w n trains =
          some (convert_to_binned s w n trains)) := by
  refine ⟨setFilled_newstyle, ?_, ?_⟩
  · intro fuel s w n trains
    unfold constructFilled
    rw [setFilled_newstyle]
    rfl
  · intro fuel hfuel s w n trains
    unfold constructFilled
    rw [setFilled_classic fuel none [],
      Option.some_bind, constructFilled_classic_fold fuel hfuel s w n trains [],
      Option.some_bind, getFilled_classic fuel hfuel]
    simp

/-- Witness for C2: the classic-semantics constructor terminates at fuel `1`
on a one-spike train, and the new-style setter diverges at fuel `5`. -/
theorem C2_filled_property_w :
    constructFilled .classic 1 0 1 10 [⟨[1 / 2], 0, 10⟩]
      = some (convert_to_binned 0 1 10 [⟨[1 / 2], 0, 10⟩])
    ∧ setFilled .newstyle 5 none [] = none :=
  ⟨C2_filled_property.2.2 1 le_rfl 0 1 10 [⟨[1 / 2], 0, 10⟩],
   C2_filled_property.1 5 none []⟩

/-- Counterexample for C2 as stated: at the docstring's concrete input the
construction terminates normally — the `filled`-attribute interaction
completes under the class's actual (classic) semantics, and the full
constructor returns the documented instance with
`filled = [[0, 0, 1, 3, 4, 5, 6]]`. -/
theorem C2_counterexample :
    constructFilled .classic 1 0 1 10
        [⟨[1 / 2, 7 / 10, 6 / 5, 31 / 10, 43 / 10, 11 / 2, 67 / 10], 0, 10⟩]
      = some [[0, 0, 1, 3, 4, 5, 6]]
    ∧ binned_st_make [⟨[1 / 2, 7 / 10, 6 / 5, 31 / 10, 43 / 10, 11 / 2, 67 / 10], 0, 10⟩]
        (some 1) (some 10) (some 0) (some 10) false
      = .ok ⟨0, 10, 1, 10, 1, 10, [[0, 0, 1, 3, 4, 5, 6]], false, false, none, none⟩ := by
  constructor
  · unfold constructFilled
    rw [setFilled_classic 1 none [],
      Option.some_bind, constructFilled_classic_fold 1 le_rfl 0 1 10 _ [],
      Option.some_bind, getFilled_classic 1 le_rfl]
    norm_num [convert_to_binned, binRow, binIndex, truncQ]
  · unfold binned_st_make binned_st_core
    norm_num [check_init_params, count_params, truthyQ, truthyZ, maxTstart,
      minTstop, check_consistency7, truncQ, convert_to_binned, binRow, binIndex]

end ElephantRep
